import Mathlib

/-!
Verification of the SyncDaw audio transport and recording engine.

This development shallowly embeds the engine's core components and proves
the specified properties about them:

* the transport clock (`useTransport` in `src/app/hooks/useDAW.ts`):
  play / pause / stop / seek / setLoop and the per-frame `tick` advance
  with loop wraparound and re-anchoring;
* the per-track engine (`AudioTrack` in `src/app/lib/audio-engine.ts`):
  recording stop, buffer decode/merge (`loadAudioFromBlob`), playback
  scheduling (`play`) and the `duration` getter;
* the engine facade (`AudioEngine` in `src/app/lib/audio-engine.ts`):
  track creation / removal over a heap of track objects;
* the time-domain waveform store
  (`TimedomainWaveform` in `src/app/components/TimedomainWaveform.tsx`):
  the `Map`-backed slot archive with session clearing and eviction.

Numbers are modelled as rationals (`ℚ`); JavaScript `Math.round`,
`Math.floor` and the `%` remainder are given explicit definitions below.
-/

namespace SyncDaw

/-! ### JavaScript numeric primitives -/

/-- Truncation toward zero, as JavaScript coerces for the `%` operator's
quotient: `trunc q = ⌊q⌋` for nonnegative `q` and `⌈q⌉` for negative `q`. -/
def qtrunc (q : ℚ) : ℤ :=
  if 0 ≤ q then ⌊q⌋ else ⌈q⌉

/-- JavaScript `a % b` (remainder with the sign of the dividend):
`a - b * trunc (a / b)`. -/
def jsMod (a b : ℚ) : ℚ :=
  a - b * (qtrunc (a / b) : ℚ)

/-- JavaScript `Math.round`: round half toward positive infinity. -/
def jsRound (q : ℚ) : ℤ :=
  ⌊q + 1 / 2⌋

theorem qtrunc_of_nonneg {q : ℚ} (h : 0 ≤ q) : qtrunc q = ⌊q⌋ := by
  simp [qtrunc, h]

theorem jsMod_of_nonneg {a b : ℚ} (ha : 0 ≤ a) (hb : 0 < b) :
    jsMod a b = a - b * (⌊a / b⌋ : ℚ) := by
  have : 0 ≤ a / b := div_nonneg ha hb.le
  simp [jsMod, qtrunc_of_nonneg this]

theorem jsMod_nonneg {a b : ℚ} (ha : 0 ≤ a) (hb : 0 < b) : 0 ≤ jsMod a b := by
  rw [jsMod_of_nonneg ha hb]
  have h1 : (⌊a / b⌋ : ℚ) ≤ a / b := Int.floor_le (a / b)
  have h2 : b * (⌊a / b⌋ : ℚ) ≤ b * (a / b) := by
    exact mul_le_mul_of_nonneg_left h1 hb.le
  have h3 : b * (a / b) = a := by field_simp
  linarith

theorem jsMod_lt {a b : ℚ} (ha : 0 ≤ a) (hb : 0 < b) : jsMod a b < b := by
  rw [jsMod_of_nonneg ha hb]
  have h1 : a / b - 1 < (⌊a / b⌋ : ℚ) := Int.sub_one_lt_floor (a / b)
  have h2 : b * (a / b - 1) < b * (⌊a / b⌋ : ℚ) := by
    exact mul_lt_mul_of_pos_left h1 hb
  have h3 : b * (a / b) = a := by field_simp
  nlinarith

/-- `jsMod` is determined by its defining congruence: if `r ∈ [0, b)` and
`a - r` is an integer multiple of `b`, with `a ≥ 0`, then `jsMod a b = r`. -/
theorem jsMod_eq_of_congruent {a b r : ℚ} (k : ℤ) (ha : 0 ≤ a) (hb : 0 < b)
    (hr0 : 0 ≤ r) (hrb : r < b) (hk : a = r + (k : ℚ) * b) :
    jsMod a b = r := by
  rw [jsMod_of_nonneg ha hb]
  have hfloor : ⌊a / b⌋ = k := by
    rw [Int.floor_eq_iff]
    constructor
    · rw [hk, le_div_iff₀ hb]
      nlinarith
    · rw [hk, div_lt_iff₀ hb]
      nlinarith
  rw [hfloor, hk]
  ring

/-! ### Transport clock

From `useTransport` at the bottom of `src/app/hooks/useDAW.ts`.  The zustand
store fields (`isPlaying`, `currentTime`, `loopEnabled`, `loopStart`,
`loopEnd`) and the closure variables (`startWallTime`, `startPlayhead`) are
combined into one state record; `bpm` and the animation-frame id play no
role in the claims and are omitted.  Wall-clock readings of
`performance.now()` (in seconds) are passed in explicitly as `now`. -/

structure TransportState where
  isPlaying : Bool
  currentTime : ℚ
  loopEnabled : Bool
  loopStart : ℚ
  loopEnd : ℚ
  startWallTime : ℚ
  startPlayhead : ℚ
  deriving Repr, DecidableEq

/-- The store's initial value: `isPlaying: false, currentTime: 0,
loopEnabled: false, loopStart: 0, loopEnd: 8`. -/
def initialTransport : TransportState :=
  { isPlaying := false
    currentTime := 0
    loopEnabled := false
    loopStart := 0
    loopEnd := 8
    startWallTime := 0
    startPlayhead := 0 }

/-- `play()` at wall time `now`: no-op if already playing, else anchor
`(startWallTime = now, startPlayhead = currentTime)` and mark playing. -/
def transportPlay (s : TransportState) (now : ℚ) : TransportState :=
  if s.isPlaying then s
  else { s with isPlaying := true, startWallTime := now, startPlayhead := s.currentTime }

/-- `pause()`: no-op if not playing, else stop the advance loop. -/
def transportPause (s : TransportState) : TransportState :=
  if s.isPlaying then { s with isPlaying := false } else s

/-- `stop()`: stop the advance loop and reset `currentTime` to 0. -/
def transportStop (s : TransportState) : TransportState :=
  { s with isPlaying := false, currentTime := 0 }

/-- `seek(time)` at wall time `now`: clamp to `max 0 time`; if playing,
re-anchor the playhead reference; always set `currentTime` to the clamp. -/
def transportSeek (s : TransportState) (now time : ℚ) : TransportState :=
  let clamped := max 0 time
  if s.isPlaying then
    { s with currentTime := clamped, startPlayhead := clamped, startWallTime := now }
  else
    { s with currentTime := clamped }

/-- `setLoop(enabled, start?, end?)`: update the loop flags, bounds
defaulting to the previous values when omitted. -/
def transportSetLoop (s : TransportState) (enabled : Bool)
    (startArg endArg : Option ℚ) : TransportState :=
  { s with
    loopEnabled := enabled
    loopStart := startArg.getD s.loopStart
    loopEnd := endArg.getD s.loopEnd }

/-- One per-frame `tick` at wall time `now`: if playing, compute
`next = startPlayhead + (now - startWallTime)`; when looping and
`next > loopEnd`, wrap `next` into the loop region with the JavaScript
`%` remainder and re-anchor the reference pair; store `next` into
`currentTime`. -/
def tick (s : TransportState) (now : ℚ) : TransportState :=
  if s.isPlaying then
    let elapsed := now - s.startWallTime
    let next := s.startPlayhead + elapsed
    if s.loopEnabled ∧ next > s.loopEnd then
      let wrapped := s.loopStart + jsMod (next - s.loopStart) (s.loopEnd - s.loopStart)
      { s with currentTime := wrapped, startWallTime := now, startPlayhead := wrapped }
    else
      { s with currentTime := next }
  else s

/-- A sequence of per-frame advances at the given wall times. -/
def runTicks (s : TransportState) (times : List ℚ) : TransportState :=
  times.foldl tick s

/-! ### Track engine

From `AudioTrack` in `src/app/lib/audio-engine.ts`.  An `AudioBuffer` is a
multi-channel float sample array with a fixed sample rate; `sample ch i`
is the value `getChannelData(ch)[i]`, taken to be `0` outside the
allocated region exactly as `createBuffer` zero-fills. -/

structure AudioBuffer where
  sampleRate : ℚ
  numberOfChannels : ℕ
  length : ℕ
  sample : ℕ → ℕ → ℚ

/-- `AudioBuffer.duration` in the Web Audio API: `length / sampleRate`. -/
def AudioBuffer.duration (b : AudioBuffer) : ℚ :=
  (b.length : ℚ) / b.sampleRate

/-- An in-flight `AudioBufferSourceNode`: created by `play`, carrying the
buffer, the playback offset passed to `start(0, startTime)` and the
absolute stop time passed to `stop(stopTime)` when one was scheduled. -/
structure SourceNode where
  buffer : AudioBuffer
  startOffset : ℚ
  scheduledStop : Option ℚ

/-- The `AudioTrack` fields the claims touch.  The `MediaRecorder` object
is abstracted to the boolean `hasRecorder` (`this.recorder !== null`). -/
structure TrackState where
  audioBuffer : Option AudioBuffer
  sourceNode : Option SourceNode
  isRecording : Bool
  hasRecorder : Bool
  isMuted : Bool
  volume : ℚ
  recordedDuration : Option ℚ
  segmentStartPos : ℚ

/-- A freshly constructed track: no buffer, not recording, not muted,
volume 80. -/
def newTrack : TrackState :=
  { audioBuffer := none
    sourceNode := none
    isRecording := false
    hasRecorder := false
    isMuted := false
    volume := 80
    recordedDuration := none
    segmentStartPos := 0 }

/-- `AudioTrack.stop()`: stops and discards any in-flight source node
(`sourceNode.stop()` may throw if playback already ended; the code
swallows that, so the node is dropped unconditionally). -/
def trackStop (tr : TrackState) : TrackState :=
  { tr with sourceNode := none }

/-- `AudioTrack.startRecording()` prologue: no-op if already recording;
otherwise mark the segment start position with the transport's current
time and open a recorder.  (The capture session itself is external.) -/
def trackStartRecording (tr : TrackState) (transport : TransportState) : TrackState :=
  if tr.isRecording then tr
  else
    { tr with
      segmentStartPos := transport.currentTime
      hasRecorder := true
      isRecording := true }

/-- `AudioTrack.stopRecording()`: when a recorder exists and recording is
active, capture `recordedDuration` as the transport's `currentTime` at the
moment of the call and clear the recording flag.  (Decoding of the
captured chunks happens asynchronously afterwards, see
`loadAudioFromBlob`.) -/
def trackStopRecording (tr : TrackState) (transport : TransportState) : TrackState :=
  if tr.hasRecorder ∧ tr.isRecording then
    { tr with recordedDuration := some transport.currentTime, isRecording := false }
  else tr

/-- The merge of `loadAudioFromBlob`'s same-sample-rate branch: given the
existing buffer and the newly decoded segment, splice the segment into a
fresh buffer of `max(existing.length, offsetFrames + new.length)` frames
at `offsetFrames = Math.round(segmentStartPos * sampleRate)`, channel
count the max of the two; per channel the existing data is copied in from
frame 0 (`out.set(existing.getChannelData(ch))`) and the new data is then
copied in at the offset (`out.set(new.getChannelData(ch), offsetFrames)`),
overwriting the overlap. -/
def mergeBuffers (existing newBuffer : AudioBuffer) (segmentStartPos : ℚ) : AudioBuffer :=
  let sr := existing.sampleRate
  let offsetFrames : ℤ := jsRound (segmentStartPos * sr)
  let totalFrames : ℤ := max (existing.length : ℤ) (offsetFrames + newBuffer.length)
  let numChannels : ℕ := max existing.numberOfChannels newBuffer.numberOfChannels
  { sampleRate := sr
    numberOfChannels := numChannels
    length := totalFrames.toNat
    sample := fun ch i =>
      if ch < newBuffer.numberOfChannels ∧ offsetFrames ≤ (i : ℤ) ∧
          (i : ℤ) < offsetFrames + newBuffer.length then
        newBuffer.sample ch ((i : ℤ) - offsetFrames).toNat
      else if ch < existing.numberOfChannels ∧ i < existing.length then
        existing.sample ch i
      else 0 }

/-- `AudioTrack.loadAudioFromBlob`, with the asynchronous decode's outcome
passed in (`none` models `decodeAudioData` rejecting, in which case the
surrounding `try`/`catch` logs and leaves every field untouched).  With a
decoded segment: first recording installs it directly; a sample-rate
mismatch overwrites the existing buffer wholesale; otherwise the segment
is merged at the frame offset of `segmentStartPos`. -/
def loadAudioFromBlob (tr : TrackState) (decoded : Option AudioBuffer) : TrackState :=
  match decoded with
  | none => tr
  | some newBuffer =>
    match tr.audioBuffer with
    | none => { tr with audioBuffer := some newBuffer }
    | some existing =>
      if newBuffer.sampleRate ≠ existing.sampleRate then
        { tr with audioBuffer := some newBuffer }
      else
        { tr with audioBuffer := some (mergeBuffers existing newBuffer tr.segmentStartPos) }

/-- `AudioTrack.play(startTime)` at audio-clock time `now`: no-op without
a buffer, no-op when muted; otherwise stop any in-flight node and start a
new source at offset `startTime`, scheduling a stop at
`now + (recordedDuration - startTime)` whenever `recordedDuration` is
set. -/
def trackPlay (tr : TrackState) (now startTime : ℚ) : TrackState :=
  match tr.audioBuffer with
  | none => tr
  | some buf =>
    if tr.isMuted then tr
    else
      let stopped := trackStop tr
      { stopped with
        sourceNode := some
          { buffer := buf
            startOffset := startTime
            scheduledStop := tr.recordedDuration.map fun d => now + (d - startTime) } }

/-- The `duration` getter: `recordedDuration` when set, else the raw
buffer's duration, else 0. -/
def trackDuration (tr : TrackState) : ℚ :=
  match tr.recordedDuration with
  | some d => d
  | none =>
    match tr.audioBuffer with
    | some b => b.duration
    | none => 0

/-! ### JavaScript `Map` on rational keys

`Map.set` overwrites in place when the key is present and appends
otherwise (preserving insertion order); `Map.delete` removes the entry;
`Map.get` looks the key up.  Keys are unique (`KeysNodup`).  Used both by
the engine facade (`Map<string, AudioTrack>`, keys abstracted to `ℕ`
handles there) and by the waveform store (`Map<number, Float32Array>`). -/

def mapSet {K V : Type} [DecidableEq K] (m : List (K × V)) (k : K) (v : V) :
    List (K × V) :=
  if m.any (fun p => p.1 = k) then
    m.map (fun p => if p.1 = k then (k, v) else p)
  else
    m ++ [(k, v)]

def mapDelete {K V : Type} [DecidableEq K] (m : List (K × V)) (k : K) : List (K × V) :=
  m.filter (fun p => p.1 ≠ k)

def mapGet {K V : Type} [DecidableEq K] (m : List (K × V)) (k : K) : Option V :=
  (m.find? (fun p => p.1 = k)).map Prod.snd

def KeysNodup {K V : Type} (m : List (K × V)) : Prop :=
  (m.map Prod.fst).Nodup

/-- `Math.min(...keys)` over a nonempty key list (the empty case never
arises: the code only computes it when the map has more than 1000
entries); `0` stands in for `Infinity` on the empty map. -/
def minKey {V : Type} : List (ℚ × V) → ℚ
  | [] => 0
  | p :: ps => ps.foldl (fun acc q => min acc q.1) p.1

/-! ### Time-domain waveform store

From `TimedomainWaveform` in `src/app/components/TimedomainWaveform.tsx`:
the component keeps `waveformBufferRef : Map<number, Float32Array>` and
`recordingStartTimeRef : number`.  A stored slice is modelled as
`List ℚ`. -/

structure TimedomainState where
  waveformBuffer : List (ℚ × List ℚ)
  recordingStartTime : ℚ

/-- The key `Math.floor(relativeTime * 100) / 100` (10 ms granularity). -/
def timeKeyOf (relativeTime : ℚ) : ℚ :=
  (⌊relativeTime * 100⌋ : ℚ) / 100

/-- Starting a recording session: the effect hook stores
`recordingStartTimeRef.current = currentTime` and `startRecording` then
executes `waveformBufferRef.current.clear()` (line 104), dropping every
previously stored slot. -/
def timedomainStartSession (s : TimedomainState) (currentTime : ℚ) : TimedomainState :=
  { recordingStartTime := currentTime
    waveformBuffer := [] }

/-- One `capture` step of `captureTimeDomainData` (lines 127‒141): if
`relativeTime = currentTime - recordingStartTime` is nonnegative, store a
copy of the analyser data under its time key, then, when more than 1000
slots are populated, delete the slot with the smallest key. -/
def timedomainCapture (s : TimedomainState) (currentTime : ℚ) (data : List ℚ) :
    TimedomainState :=
  let relativeTime := currentTime - s.recordingStartTime
  if 0 ≤ relativeTime then
    let m1 := mapSet s.waveformBuffer (timeKeyOf relativeTime) data
    let m2 := if 1000 < m1.length then mapDelete m1 (minKey m1) else m1
    { s with waveformBuffer := m2 }
  else s

/-! ### Engine facade

From `AudioEngine` in `src/app/lib/audio-engine.ts`.  JavaScript object
identity matters for the claims (a replaced map entry does not destroy
the replaced `AudioTrack`), so tracks live on a heap of numbered handles
and the facade's `Map<string, AudioTrack>` maps ids to handles. -/

/-- The observable side-state of an `AudioTrack` object relevant to
disposal: whether its gain → pan → destination path is connected, and
whether a source node / recorder is running. -/
structure AudioTrackObj where
  connected : Bool
  playing : Bool
  recording : Bool
  deriving Repr, DecidableEq

/-- The `AudioTrack` constructor connects `trackGain` to `panNode` to the
destination; nothing is playing or recording yet. -/
def freshTrackObj : AudioTrackObj :=
  { connected := true, playing := false, recording := false }

/-- `AudioTrack.dispose()`: `this.stop()` (drops the source node) and
`this.recorder.stop()`.  The signal path is left connected. -/
def disposeObj (t : AudioTrackObj) : AudioTrackObj :=
  { t with playing := false, recording := false }

structure EngineState where
  isInitialized : Bool
  nextHandle : ℕ
  heap : List (ℕ × AudioTrackObj)
  tracks : List (String × ℕ)

/-- `AudioEngine.createTrack(id)`: throws when not initialized; otherwise
constructs `new AudioTrack(...)` (a fresh heap object) and
`this.tracks.set(id, track)`.  The previous entry, if any, is only
un-mapped — never disposed. -/
def createTrack (e : EngineState) (id : String) : Except String EngineState :=
  if e.isInitialized then
    Except.ok
      { e with
        nextHandle := e.nextHandle + 1
        heap := e.heap ++ [(e.nextHandle, freshTrackObj)]
        tracks := mapSet e.tracks id e.nextHandle }
  else
    Except.error "AudioEngine not initialized"

/-- `AudioEngine.removeTrack(id)`: when the id is mapped, dispose the
track object and delete the map entry; otherwise a no-op. -/
def removeTrack (e : EngineState) (id : String) : EngineState :=
  match mapGet e.tracks id with
  | none => e
  | some h =>
    { e with
      heap := e.heap.map (fun p => if p.1 = h then (h, disposeObj p.2) else p)
      tracks := mapDelete e.tracks id }

/-- Handles stored anywhere in the engine are strictly below
`nextHandle`; holds for every state reachable from an empty engine. -/
def HandlesFresh (e : EngineState) : Prop :=
  ∀ p ∈ e.heap, p.1 < e.nextHandle

/-! ### Concrete instances used to exhibit behaviours -/

/-- A 3 s mono buffer at 44.1 kHz, all-zero samples. -/
def exampleBuffer : AudioBuffer :=
  { sampleRate := 44100, numberOfChannels := 1, length := 132300, sample := fun _ _ => 0 }

/-- A stereo buffer at 48 kHz (mismatching `exampleBuffer`'s rate). -/
def exampleBuffer48 : AudioBuffer :=
  { sampleRate := 48000, numberOfChannels := 2, length := 480, sample := fun _ _ => 1 / 2 }

/-- A track holding `exampleBuffer` with `recordedDuration = 3`. -/
def examplePlayTrack : TrackState :=
  { newTrack with
    audioBuffer := some exampleBuffer
    hasRecorder := true
    recordedDuration := some 3 }

/-- A muted track holding `exampleBuffer`. -/
def exampleMutedTrack : TrackState :=
  { newTrack with audioBuffer := some exampleBuffer, isMuted := true }

/-- A track in the middle of a recording session. -/
def exampleRecordingTrack : TrackState :=
  { newTrack with hasRecorder := true, isRecording := true }

/-- A transport whose playhead sits at 3 s. -/
def exampleTransportAt3 : TransportState :=
  { initialTransport with currentTime := 3 }

/-- A playing transport with loop region `[0, 1)` enabled, anchored at 0. -/
def seekLoopState : TransportState :=
  { isPlaying := true
    currentTime := 0
    loopEnabled := true
    loopStart := 0
    loopEnd := 1
    startWallTime := 0
    startPlayhead := 0 }

/-- A playing transport with looping disabled. -/
def seekPlainState : TransportState :=
  { seekLoopState with loopEnabled := false }

/-- A stopped transport with loop region `[0, 3)` enabled and the
playhead parked on `loopStart`. -/
def loopBase : TransportState :=
  { isPlaying := false
    currentTime := 0
    loopEnabled := true
    loopStart := 0
    loopEnd := 3
    startWallTime := 0
    startPlayhead := 0 }

/-- A 4-frame mono buffer at 1 Hz with samples 1, 2, 3, 4. -/
def bufA : AudioBuffer :=
  { sampleRate := 1, numberOfChannels := 1, length := 4, sample := fun _ i => (i : ℚ) + 1 }

/-- A 2-frame mono buffer at 1 Hz with constant sample 9. -/
def bufB : AudioBuffer :=
  { sampleRate := 1, numberOfChannels := 1, length := 2, sample := fun _ _ => 9 }

/-- A track holding `bufA` whose current segment started at transport
time 1. -/
def overdubTrack : TrackState :=
  { newTrack with audioBuffer := some bufA, segmentStartPos := 1 }

/-- An initialized engine owning one track object (currently playing)
under id "1" at handle 0. -/
def exampleEngine : EngineState :=
  { isInitialized := true
    nextHandle := 1
    heap := [(0, { connected := true, playing := true, recording := false })]
    tracks := [("1", 0)] }

/-! ### Invariant for the loop-wrap analysis (claim C2)

After playback starts at `loopStart` (wall time `w0`) and any ticks at
times up to `tPrev` have run, the anchor pair `(startWallTime,
startPlayhead)` always satisfies: the playhead offset into the loop lies
in `[0, loopLen)` and differs from the anchored wall-clock elapsed time
by a whole number of loop lengths. -/
def TickInv (ls le w0 tPrev : ℚ) (s : TransportState) : Prop :=
  s.isPlaying = true ∧ s.loopEnabled = true ∧ s.loopStart = ls ∧ s.loopEnd = le ∧
  s.startWallTime ≤ tPrev ∧
  ∃ n : ℤ, 0 ≤ n ∧
    s.startPlayhead - ls = (s.startWallTime - w0) - (n : ℚ) * (le - ls) ∧
    0 ≤ s.startPlayhead - ls ∧ s.startPlayhead - ls < le - ls

/-! ### Association-list map lemmas -/

theorem mapGet_cons_of_eq {K V : Type} [DecidableEq K] {a : K × V} (m : List (K × V))
    (k : K) (h : a.1 = k) : mapGet (a :: m) k = some a.2 := by
  simp [mapGet, List.find?_cons_of_pos, h]

theorem mapGet_cons_of_ne {K V : Type} [DecidableEq K] {a : K × V} (m : List (K × V))
    (k : K) (h : ¬a.1 = k) : mapGet (a :: m) k = mapGet m k := by
  simp [mapGet, List.find?_cons_of_neg, h]

theorem mapGet_eq_none_iff {K V : Type} [DecidableEq K] (m : List (K × V)) (k : K) :
    mapGet m k = none ↔ ∀ p ∈ m, p.1 ≠ k := by
  simp [mapGet, List.find?_eq_none]

theorem mapGet_isSome_iff_mem {K V : Type} [DecidableEq K] (m : List (K × V)) (k : K) :
    (∃ v, mapGet m k = some v) ↔ k ∈ m.map Prod.fst := by
  induction m with
  | nil => simp [mapGet]
  | cons a m ih =>
    by_cases h : a.1 = k
    · simp [mapGet_cons_of_eq m k h, h]
    · rw [mapGet_cons_of_ne m k h]
      simp only [List.map_cons, List.mem_cons, ih]
      constructor
      · intro hv
        exact Or.inr hv
      · rintro (hv | hv)
        · exact absurd hv.symm h
        · exact hv

theorem mapGet_mapSet_self {K V : Type} [DecidableEq K] (m : List (K × V)) (k : K)
    (v : V) : mapGet (mapSet m k v) k = some v := by
  unfold mapSet
  by_cases hany : m.any (fun p => p.1 = k) = true
  · rw [if_pos hany]
    induction m with
    | nil => simp at hany
    | cons a m ih =>
      by_cases h : a.1 = k
      · simp only [List.map_cons, if_pos h]
        exact mapGet_cons_of_eq _ k rfl
      · simp only [List.map_cons, if_neg h]
        rw [mapGet_cons_of_ne _ k h]
        apply ih
        simp only [List.any_cons, Bool.or_eq_true] at hany
        rcases hany with h' | h'
        · exact absurd (of_decide_eq_true h') h
        · exact h'
  · rw [if_neg hany]
    induction m with
    | nil => exact mapGet_cons_of_eq _ k rfl
    | cons a m ih =>
      simp only [List.any_cons, Bool.or_eq_true, not_or] at hany
      have h : ¬a.1 = k := fun hh => hany.1 (decide_eq_true hh)
      rw [List.cons_append, mapGet_cons_of_ne _ k h]
      exact ih (by simpa using hany.2)

theorem mapGet_append {K V : Type} [DecidableEq K] (m l : List (K × V)) (k : K) :
    mapGet (m ++ l) k = match mapGet m k with
      | some v => some v
      | none => mapGet l k := by
  induction m with
  | nil => simp [mapGet]
  | cons a m ih =>
    by_cases h : a.1 = k
    · rw [List.cons_append, mapGet_cons_of_eq _ k h, mapGet_cons_of_eq _ k h]
    · rw [List.cons_append, mapGet_cons_of_ne _ k h, mapGet_cons_of_ne _ k h, ih]

theorem mapGet_map_replace_self {K V : Type} [DecidableEq K] (m : List (K × V))
    (k : K) (f : V → V) {t : V} (h : mapGet m k = some t) :
    mapGet (m.map fun p => if p.1 = k then (k, f p.2) else p) k = some (f t) := by
  induction m with
  | nil => simp [mapGet] at h
  | cons a m ih =>
    by_cases ha : a.1 = k
    · rw [mapGet_cons_of_eq _ k ha] at h
      simp only [List.map_cons, if_pos ha]
      rw [mapGet_cons_of_eq _ k rfl]
      simp only [Option.some.injEq] at h ⊢
      rw [h]
    · rw [mapGet_cons_of_ne _ k ha] at h
      simp only [List.map_cons, if_neg ha]
      rw [mapGet_cons_of_ne _ k ha]
      exact ih h

theorem mapGet_map_replace_ne {K V : Type} [DecidableEq K] (m : List (K × V))
    (k k' : K) (v : V) (hne : k' ≠ k) :
    mapGet (m.map fun p => if p.1 = k then (k, v) else p) k' = mapGet m k' := by
  induction m with
  | nil => simp [mapGet]
  | cons a m ih =>
    by_cases ha : a.1 = k
    · have hk' : ¬a.1 = k' := fun hh => hne ((ha ▸ hh).symm ▸ rfl)
      simp only [List.map_cons, if_pos ha]
      rw [mapGet_cons_of_ne _ k' (fun hh => hne hh.symm), mapGet_cons_of_ne _ k' hk']
      exact ih
    · simp only [List.map_cons, if_neg ha]
      by_cases h' : a.1 = k'
      · rw [mapGet_cons_of_eq _ k' h', mapGet_cons_of_eq _ k' h']
      · rw [mapGet_cons_of_ne _ k' h', mapGet_cons_of_ne _ k' h']
        exact ih

theorem mapGet_mapSet_ne {K V : Type} [DecidableEq K] (m : List (K × V)) (k k' : K)
    (v : V) (hne : k' ≠ k) : mapGet (mapSet m k v) k' = mapGet m k' := by
  unfold mapSet
  by_cases hany : m.any (fun p => p.1 = k) = true
  · rw [if_pos hany]
    exact mapGet_map_replace_ne m k k' v hne
  · rw [if_neg hany, mapGet_append]
    cases hm : mapGet m k' with
    | some w => rfl
    | none =>
      rw [mapGet_cons_of_ne _ k' (fun hh => hne hh.symm)]
      simp [mapGet]

theorem length_mapSet {K V : Type} [DecidableEq K] (m : List (K × V)) (k : K) (v : V) :
    (mapSet m k v).length = m.length ∨ (mapSet m k v).length = m.length + 1 := by
  unfold mapSet
  by_cases hany : m.any (fun p => p.1 = k) = true
  · rw [if_pos hany]
    exact Or.inl (List.length_map _ _)
  · rw [if_neg hany]
    exact Or.inr (by simp)

theorem length_mapSet_ge {K V : Type} [DecidableEq K] (m : List (K × V)) (k : K)
    (v : V) : m.length ≤ (mapSet m k v).length := by
  rcases length_mapSet m k v with h | h <;> omega

theorem length_mapSet_le {K V : Type} [DecidableEq K] (m : List (K × V)) (k : K)
    (v : V) : (mapSet m k v).length ≤ m.length + 1 := by
  rcases length_mapSet m k v with h | h <;> omega

theorem keys_mapSet {K V : Type} [DecidableEq K] (m : List (K × V)) (k : K) (v : V) :
    (mapSet m k v).map Prod.fst = m.map Prod.fst ∨
    (mapSet m k v).map Prod.fst = m.map Prod.fst ++ [k] := by
  unfold mapSet
  by_cases hany : m.any (fun p => p.1 = k) = true
  · rw [if_pos hany]
    left
    rw [List.map_map]
    apply List.map_congr_left
    intro p _
    by_cases h : p.1 = k
    · simp [h]
    · simp [h]
  · rw [if_neg hany]
    right
    simp

theorem keysNodup_mapSet {K V : Type} [DecidableEq K] (m : List (K × V)) (k : K)
    (v : V) (hn : KeysNodup m) : KeysNodup (mapSet m k v) := by
  unfold KeysNodup mapSet at *
  by_cases hany : m.any (fun p => p.1 = k) = true
  · rw [if_pos hany]
    have hkeys : (m.map fun p => if p.1 = k then (k, v) else p).map Prod.fst =
        m.map Prod.fst := by
      rw [List.map_map]
      apply List.map_congr_left
      intro p _
      by_cases h : p.1 = k
      · simp [h]
      · simp [h]
    rw [hkeys]
    exact hn
  · rw [if_neg hany]
    have hnotmem : k ∉ m.map Prod.fst := by
      intro hmem
      rcases List.mem_map.mp hmem with ⟨p, hp, hpk⟩
      exact hany (List.any_eq_true.mpr ⟨p, hp, by simp [hpk]⟩)
    rw [List.map_append, List.nodup_append]
    refine ⟨hn, List.nodup_singleton k, ?_⟩
    intro a ha hamem
    simp only [List.map_cons, List.map_nil, List.mem_singleton] at hamem
    exact hnotmem (hamem ▸ ha)

theorem keysNodup_mapDelete {K V : Type} [DecidableEq K] (m : List (K × V)) (k : K)
    (hn : KeysNodup m) : KeysNodup (mapDelete m k) := by
  unfold KeysNodup mapDelete at *
  induction m with
  | nil => simp
  | cons a m ih =>
    simp only [List.map_cons, List.nodup_cons] at hn
    by_cases h : a.1 = k
    · rw [List.filter_cons_of_neg (by simp [h])]
      exact ih hn.2
    · rw [List.filter_cons_of_pos (by simp [h])]
      simp only [List.map_cons, List.nodup_cons]
      refine ⟨fun hmem => hn.1 ?_, ih hn.2⟩
      rcases List.mem_map.mp hmem with ⟨p, hp, hpk⟩
      exact List.mem_map.mpr ⟨p, List.mem_of_mem_filter hp, hpk⟩

theorem mapGet_mapDelete_self {K V : Type} [DecidableEq K] (m : List (K × V))
    (k : K) : mapGet (mapDelete m k) k = none := by
  rw [mapGet_eq_none_iff]
  intro p hp
  have := List.of_mem_filter hp
  simpa using this

theorem mapGet_mapDelete_ne {K V : Type} [DecidableEq K] (m : List (K × V))
    (k k' : K) (hne : k' ≠ k) : mapGet (mapDelete m k) k' = mapGet m k' := by
  induction m with
  | nil => simp [mapGet, mapDelete]
  | cons a m ih =>
    by_cases hak : a.1 = k
    · unfold mapDelete
      rw [List.filter_cons_of_neg (by simp [hak])]
      rw [mapGet_cons_of_ne _ k' (by rw [hak]; exact fun hh => hne hh.symm)]
      exact ih
    · unfold mapDelete
      rw [List.filter_cons_of_pos (by simp [hak])]
      by_cases hak' : a.1 = k'
      · rw [mapGet_cons_of_eq _ k' hak', mapGet_cons_of_eq _ k' hak']
      · rw [mapGet_cons_of_ne _ k' hak', mapGet_cons_of_ne _ k' hak']
        exact ih

theorem mapDelete_of_not_mem {K V : Type} [DecidableEq K] (m : List (K × V)) (k : K)
    (h : ∀ p ∈ m, p.1 ≠ k) : mapDelete m k = m := by
  unfold mapDelete
  apply List.filter_eq_self.mpr
  intro p hp
  simp [h p hp]

theorem length_mapDelete_of_mem {K V : Type} [DecidableEq K] (m : List (K × V))
    (k : K) (hn : KeysNodup m) (hmem : k ∈ m.map Prod.fst) :
    (mapDelete m k).length + 1 = m.length := by
  unfold KeysNodup at hn
  induction m with
  | nil => simp at hmem
  | cons a m ih =>
    simp only [List.map_cons, List.nodup_cons] at hn
    by_cases h : a.1 = k
    · unfold mapDelete
      rw [List.filter_cons_of_neg (by simp [h])]
      have : ∀ p ∈ m, p.1 ≠ k := by
        intro p hp hpk
        exact hn.1 (h ▸ hpk ▸ List.mem_map.mpr ⟨p, hp, rfl⟩)
      rw [show (List.filter (fun p => p.1 ≠ k) m) = mapDelete m k from rfl,
        mapDelete_of_not_mem m k this]
      simp
    · simp only [List.map_cons, List.mem_cons] at hmem
      rcases hmem with hmem | hmem
      · exact absurd hmem.symm h
      · unfold mapDelete
        rw [List.filter_cons_of_pos (by simp [h])]
        simp only [List.length_cons]
        have := ih hn.2 hmem
        unfold mapDelete at this
        omega

theorem foldl_min_key_mem {V : Type} (ps : List (ℚ × V)) :
    ∀ a : ℚ, ps.foldl (fun acc q => min acc q.1) a = a ∨
      ps.foldl (fun acc q => min acc q.1) a ∈ ps.map Prod.fst := by
  induction ps with
  | nil =>
    intro a
    left
    rfl
  | cons q ps ih =>
    intro a
    simp only [List.foldl_cons]
    rcases ih (min a q.1) with h | h
    · rcases min_choice a q.1 with hm | hm
      · left
        rw [h, hm]
      · right
        rw [h, hm]
        simp
    · right
      simp only [List.map_cons, List.mem_cons]
      exact Or.inr h

theorem minKey_mem {V : Type} (m : List (ℚ × V)) (hne : m ≠ []) :
    minKey m ∈ m.map Prod.fst := by
  match m with
  | [] => exact absurd rfl hne
  | p :: ps =>
    unfold minKey
    rcases foldl_min_key_mem ps p.1 with h | h
    · simp [h]
    · simp only [List.map_cons, List.mem_cons]
      exact Or.inr h

/-! ### Unfolding lemmas for the transport operations -/

theorem transportSeek_playing (s : TransportState) (now t : ℚ)
    (h : s.isPlaying = true) :
    transportSeek s now t =
      { s with
        currentTime := max 0 t
        startPlayhead := max 0 t
        startWallTime := now } := by
  unfold transportSeek
  rw [if_pos h]

theorem tick_not_playing (s : TransportState) (now : ℚ) (h : s.isPlaying = false) :
    tick s now = s := by
  unfold tick
  rw [if_neg (by simp [h])]

theorem tick_playing_no_wrap (s : TransportState) (now : ℚ) (h : s.isPlaying = true)
    (hw : ¬(s.loopEnabled = true ∧
      s.startPlayhead + (now - s.startWallTime) > s.loopEnd)) :
    tick s now = { s with currentTime := s.startPlayhead + (now - s.startWallTime) } := by
  unfold tick
  rw [if_pos h, if_neg hw]

theorem tick_playing_wrap (s : TransportState) (now : ℚ) (h : s.isPlaying = true)
    (hw : s.loopEnabled = true ∧
      s.startPlayhead + (now - s.startWallTime) > s.loopEnd) :
    tick s now =
      { s with
        currentTime := s.loopStart +
          jsMod (s.startPlayhead + (now - s.startWallTime) - s.loopStart)
            (s.loopEnd - s.loopStart)
        startWallTime := now
        startPlayhead := s.loopStart +
          jsMod (s.startPlayhead + (now - s.startWallTime) - s.loopStart)
            (s.loopEnd - s.loopStart) } := by
  unfold tick
  rw [if_pos h, if_pos hw]

/-! ### The loop-wrap invariant is preserved by every tick -/

theorem tickInv_step (ls le w0 : ℚ) (hlt : ls < le) (s : TransportState)
    (tPrev t : ℚ) (hinv : TickInv ls le w0 tPrev s) (hle : tPrev ≤ t) :
    TickInv ls le w0 t (tick s t) ∧
    ((tick s t).currentTime = ls + jsMod (t - w0) (le - ls) ∨
      ((tick s t).currentTime = le ∧ jsMod (t - w0) (le - ls) = 0)) := by
  obtain ⟨hp, hl, hls, hle', hw, n, hn, heq, hoff0, hoffL⟩ := hinv
  subst hls
  subst hle'
  have hL : 0 < s.loopEnd - s.loopStart := by linarith
  have hwt : s.startWallTime ≤ t := le_trans hw hle
  have hx0 : 0 ≤ s.startPlayhead + (t - s.startWallTime) - s.loopStart := by linarith
  have hxeq : s.startPlayhead + (t - s.startWallTime) - s.loopStart =
      (t - w0) - (n : ℚ) * (s.loopEnd - s.loopStart) := by linarith
  have hnL : 0 ≤ (n : ℚ) * (s.loopEnd - s.loopStart) := by
    apply mul_nonneg _ hL.le
    exact_mod_cast hn
  have ht0 : 0 ≤ t - w0 := by linarith
  by_cases hwrap : s.startPlayhead + (t - s.startWallTime) > s.loopEnd
  · rw [tick_playing_wrap s t hp ⟨hl, hwrap⟩]
    have hxgtL : s.loopEnd - s.loopStart <
        s.startPlayhead + (t - s.startWallTime) - s.loopStart := by linarith
    have hr0 : 0 ≤ jsMod (s.startPlayhead + (t - s.startWallTime) - s.loopStart)
        (s.loopEnd - s.loopStart) := jsMod_nonneg hx0 hL
    have hrL : jsMod (s.startPlayhead + (t - s.startWallTime) - s.loopStart)
        (s.loopEnd - s.loopStart) < s.loopEnd - s.loopStart := jsMod_lt hx0 hL
    have hflx : jsMod (s.startPlayhead + (t - s.startWallTime) - s.loopStart)
        (s.loopEnd - s.loopStart) =
        (s.startPlayhead + (t - s.startWallTime) - s.loopStart) -
          (s.loopEnd - s.loopStart) *
            (⌊(s.startPlayhead + (t - s.startWallTime) - s.loopStart) /
              (s.loopEnd - s.loopStart)⌋ : ℚ) := jsMod_of_nonneg hx0 hL
    have hfl1 : (1 : ℤ) ≤ ⌊(s.startPlayhead + (t - s.startWallTime) - s.loopStart) /
        (s.loopEnd - s.loopStart)⌋ := by
      rw [Int.le_floor]
      push_cast
      rw [le_div_iff₀ hL]
      linarith
    have hcongr : t - w0 =
        jsMod (s.startPlayhead + (t - s.startWallTime) - s.loopStart)
          (s.loopEnd - s.loopStart) +
        ((n + ⌊(s.startPlayhead + (t - s.startWallTime) - s.loopStart) /
            (s.loopEnd - s.loopStart)⌋ : ℤ) : ℚ) * (s.loopEnd - s.loopStart) := by
      push_cast
      rw [hflx]
      ring_nf
      linarith [hxeq]
    have hmod : jsMod (t - w0) (s.loopEnd - s.loopStart) =
        jsMod (s.startPlayhead + (t - s.startWallTime) - s.loopStart)
          (s.loopEnd - s.loopStart) :=
      jsMod_eq_of_congruent _ ht0 hL hr0 hrL hcongr
    refine ⟨⟨hp, hl, rfl, rfl, le_refl t,
      n + ⌊(s.startPlayhead + (t - s.startWallTime) - s.loopStart) /
        (s.loopEnd - s.loopStart)⌋, by omega, ?_, by simpa using hr0, by simpa using hrL⟩,
      Or.inl ?_⟩
    · show s.loopStart + jsMod (s.startPlayhead + (t - s.startWallTime) - s.loopStart)
          (s.loopEnd - s.loopStart) - s.loopStart = t - w0 - _
      push_cast
      push_cast at hcongr
      linarith
    · show s.loopStart + jsMod (s.startPlayhead + (t - s.startWallTime) - s.loopStart)
          (s.loopEnd - s.loopStart) = s.loopStart + jsMod (t - w0) (s.loopEnd - s.loopStart)
      rw [hmod]
  · rw [tick_playing_no_wrap s t hp (by
      rintro ⟨-, hgt⟩
      exact hwrap hgt)]
    have hxleL : s.startPlayhead + (t - s.startWallTime) - s.loopStart ≤
        s.loopEnd - s.loopStart := by
      have := not_lt.mp hwrap
      linarith
    refine ⟨⟨hp, hl, rfl, rfl, hwt, n, hn, by simpa using heq,
      by simpa using hoff0, by simpa using hoffL⟩, ?_⟩
    rcases lt_or_eq_of_le hxleL with hxlt | hxL
    · left
      have hmod : jsMod (t - w0) (s.loopEnd - s.loopStart) =
          s.startPlayhead + (t - s.startWallTime) - s.loopStart :=
        jsMod_eq_of_congruent n ht0 hL hx0 hxlt (by push_cast; linarith)
      show s.startPlayhead + (t - s.startWallTime) =
        s.loopStart + jsMod (t - w0) (s.loopEnd - s.loopStart)
      rw [hmod]
      ring
    · right
      have hmod : jsMod (t - w0) (s.loopEnd - s.loopStart) = 0 :=
        jsMod_eq_of_congruent (n + 1) ht0 hL (le_refl 0) hL (by push_cast; linarith)
      constructor
      · show s.startPlayhead + (t - s.startWallTime) = s.loopEnd
        linarith
      · exact hmod

/-- Running any chain of ticks from an invariant state lands on
`loopStart + (elapsed mod loopLen)`, except possibly at exact multiples
of the loop length where the playhead may sit on `loopEnd` instead. -/
theorem runTicks_loop (ls le w0 : ℚ) (hlt : ls < le) :
    ∀ (ts : List ℚ) (s : TransportState) (tPrev : ℚ),
      TickInv ls le w0 tPrev s → List.Chain (· ≤ ·) tPrev ts →
      ∀ tLast, ts.getLast? = some tLast →
      ((runTicks s ts).currentTime = ls + jsMod (tLast - w0) (le - ls) ∨
        ((runTicks s ts).currentTime = le ∧
          jsMod (tLast - w0) (le - ls) = 0)) := by
  intro ts
  induction ts with
  | nil =>
    intro s tPrev _ _ tLast h
    simp at h
  | cons t ts ih =>
    intro s tPrev hinv hchain tLast hlast
    rw [List.chain_cons] at hchain
    obtain ⟨hstep, hcur⟩ := tickInv_step ls le w0 hlt s tPrev t hinv hchain.1
    cases ts with
    | nil =>
      have ht : tLast = t := by
        simp at hlast
        exact hlast.symm
      subst ht
      simpa [runTicks] using hcur
    | cons t' ts' =>
      have hrun : runTicks s (t :: t' :: ts') = runTicks (tick s t) (t' :: ts') := by
        simp [runTicks]
      rw [hrun]
      exact ih (tick s t) t hstep hchain.2 tLast (by simpa using hlast)

/-! ## Claim theorems -/

/-- Claim C4: `play(startTime)` is a no-op when the track is muted or has
no sample buffer; otherwise it first stops any in-flight playback node,
starts playback at offset `startTime` into the buffer, and, whenever
`recordedDuration` is set, schedules an automatic stop at
`now + (recordedDuration - startTime)`, so the buffer position reached at
the scheduled stop is exactly `recordedDuration` — playback never runs
past the logical recording end even if the raw buffer is longer. -/
theorem claim_C4_play_schedules_stop (tr : TrackState) (now startTime : ℚ) :
    ((tr.audioBuffer = none ∨ tr.isMuted = true) → trackPlay tr now startTime = tr) ∧
    (∀ buf, tr.audioBuffer = some buf → tr.isMuted = false →
      ∃ node : SourceNode,
        trackPlay tr now startTime = { trackStop tr with sourceNode := some node } ∧
        node.buffer = buf ∧
        node.startOffset = startTime ∧
        (∀ d, tr.recordedDuration = some d →
          node.scheduledStop = some (now + (d - startTime)) ∧
          node.startOffset + ((now + (d - startTime)) - now) = d) ∧
        (tr.recordedDuration = none → node.scheduledStop = none)) := by
  constructor
  · rintro (h | h)
    · simp [trackPlay, h]
    · cases hb : tr.audioBuffer with
      | none => simp [trackPlay, hb]
      | some buf => simp [trackPlay, hb, h]
  · intro buf hbuf hmut
    refine ⟨⟨buf, startTime, tr.recordedDuration.map fun d => now + (d - startTime)⟩,
      ?_, rfl, rfl, ?_, ?_⟩
    · simp [trackPlay, hbuf, hmut]
    · intro d hd
      rw [hd]
      exact ⟨rfl, by ring⟩
    · intro hd
      rw [hd]
      rfl

/-- Claim C4 witness: a muted track is untouched, and the concrete
3-second track schedules its stop at `5 + (3 - 0)`. -/
theorem claim_C4_witness :
    trackPlay exampleMutedTrack 1 2 = exampleMutedTrack ∧
    ∃ node : SourceNode,
      trackPlay examplePlayTrack 5 0 =
        { trackStop examplePlayTrack with sourceNode := some node } ∧
      node.buffer = exampleBuffer ∧
      node.startOffset = 0 ∧
      (∀ d, examplePlayTrack.recordedDuration = some d →
        node.scheduledStop = some (5 + (d - 0)) ∧
        node.startOffset + ((5 + (d - 0)) - 5) = d) ∧
      (examplePlayTrack.recordedDuration = none → node.scheduledStop = none) :=
  ⟨(claim_C4_play_schedules_stop exampleMutedTrack 1 2).1 (Or.inr rfl),
    (claim_C4_play_schedules_stop examplePlayTrack 5 0).2 exampleBuffer rfl rfl⟩

/-- Claim C5: `stopRecording()` captures `recordedDuration` as the
transport's `currentTime` at the moment of the call, and thereafter the
track's `duration` getter returns `recordedDuration` if set, else the raw
buffer's duration if a buffer exists, else 0. -/
theorem claim_C5_stopRecording_duration (tr : TrackState) (transport : TransportState) :
    (tr.hasRecorder = true → tr.isRecording = true →
      (trackStopRecording tr transport).recordedDuration = some transport.currentTime ∧
      trackDuration (trackStopRecording tr transport) = transport.currentTime) ∧
    (∀ d, tr.recordedDuration = some d → trackDuration tr = d) ∧
    (∀ b, tr.recordedDuration = none → tr.audioBuffer = some b →
      trackDuration tr = b.duration) ∧
    (tr.recordedDuration = none → tr.audioBuffer = none → trackDuration tr = 0) := by
  refine ⟨?_, ?_, ?_, ?_⟩
  · intro hrec hact
    constructor
    · simp [trackStopRecording, hrec, hact]
    · simp [trackStopRecording, trackDuration, hrec, hact]
  · intro d hd
    simp [trackDuration, hd]
  · intro b hd hb
    simp [trackDuration, hd, hb]
  · intro hd hb
    simp [trackDuration, hd, hb]

/-- Claim C5 witness: stopping the concrete in-flight recording at
transport time 3 yields `recordedDuration = 3` and `duration = 3`. -/
theorem claim_C5_witness :
    (trackStopRecording exampleRecordingTrack exampleTransportAt3).recordedDuration =
      some exampleTransportAt3.currentTime ∧
    trackDuration (trackStopRecording exampleRecordingTrack exampleTransportAt3) =
      exampleTransportAt3.currentTime :=
  (claim_C5_stopRecording_duration exampleRecordingTrack exampleTransportAt3).1 rfl rfl

/-- Claim C6: when a newly decoded segment's sample rate differs from the
existing buffer's, the merge degrades to a wholesale replacement — the
track's buffer becomes exactly the new segment, every other field is
untouched, and no partial merge happens. -/
theorem claim_C6_rate_mismatch_replaces (tr : TrackState) (E N : AudioBuffer)
    (hbuf : tr.audioBuffer = some E) (hsr : N.sampleRate ≠ E.sampleRate) :
    loadAudioFromBlob tr (some N) = { tr with audioBuffer := some N } := by
  simp [loadAudioFromBlob, hbuf, hsr]

/-- Claim C6 witness: decoding a 48 kHz segment over the 44.1 kHz
`exampleBuffer` overwrites the track's buffer with the new segment. -/
theorem claim_C6_witness :
    loadAudioFromBlob examplePlayTrack (some exampleBuffer48) =
      { examplePlayTrack with audioBuffer := some exampleBuffer48 } :=
  claim_C6_rate_mismatch_replaces examplePlayTrack exampleBuffer exampleBuffer48 rfl
    (by norm_num [exampleBuffer, exampleBuffer48])

/-- Claim C7: if decoding the captured audio fails, the merge step is
skipped and the track's state — in particular its sample buffer — remains
exactly as before; `loadAudioFromBlob` is total, so no exception reaches
the transport. -/
theorem claim_C7_decode_failure_skips_merge (tr : TrackState) :
    loadAudioFromBlob tr none = tr :=
  rfl

/-- Claim C9 counterexample: the initial transport satisfies
`loopStart < loopEnd` (0 < 8), yet `setLoop(true, 10)` — with `end`
omitted and defaulting to the previous value 8 — produces
`loopStart = 10 ≥ 8 = loopEnd`: `setLoop` performs no validation. -/
theorem claim_C9_counterexample :
    initialTransport.loopStart < initialTransport.loopEnd ∧
    ¬((transportSetLoop initialTransport true (some 10) none).loopStart <
      (transportSetLoop initialTransport true (some 10) none).loopEnd) := by
  constructor
  · norm_num [initialTransport]
  · norm_num [transportSetLoop, initialTransport]

/-- Claim C9 (amended): `setLoop(enabled, start?, end?)` defaults omitted
bounds to the previous values and installs them without validation; the
resulting state satisfies `loopStart < loopEnd` exactly when the resolved
pair does. -/
theorem claim_C9_amended_setLoop (s : TransportState) (enabled : Bool)
    (startArg endArg : Option ℚ)
    (h : startArg.getD s.loopStart < endArg.getD s.loopEnd) :
    (transportSetLoop s enabled startArg endArg).loopStart <
      (transportSetLoop s enabled startArg endArg).loopEnd := by
  simpa [transportSetLoop] using h

/-- Claim C9 witness: resolved bounds `(1, 2)` keep the invariant. -/
theorem claim_C9_witness :
    (transportSetLoop initialTransport true (some 1) (some 2)).loopStart <
      (transportSetLoop initialTransport true (some 1) (some 2)).loopEnd :=
  claim_C9_amended_setLoop initialTransport true (some 1) (some 2)
    (by norm_num)

/-- Claim C10: on an initialized engine, `createTrack(id)` for an id that
is already mapped replaces the map entry with a fresh `AudioTrack` but
never disposes the previous object: the old track is still on the heap,
unchanged — signal path connected, in-flight playback and recorder
untouched — while disposal happens through `removeTrack(id)`, which does
stop the mapped object. -/
theorem claim_C10_createTrack_no_dispose (e : EngineState) (id : String) (h : ℕ)
    (t : AudioTrackObj) (hinit : e.isInitialized = true) (hfresh : HandlesFresh e)
    (hmap : mapGet e.tracks id = some h) (hheap : mapGet e.heap h = some t) :
    ∃ e', createTrack e id = Except.ok e' ∧
      mapGet e'.tracks id = some e.nextHandle ∧
      e.nextHandle ≠ h ∧
      mapGet e'.heap h = some t ∧
      mapGet e'.heap e.nextHandle = some freshTrackObj ∧
      mapGet (removeTrack e id).heap h = some (disposeObj t) := by
  have hmem : ∃ q ∈ e.heap, q.1 = h := by
    unfold mapGet at hheap
    cases hfind : e.heap.find? (fun p => p.1 = h) with
    | none => rw [hfind] at hheap; simp at hheap
    | some q =>
      refine ⟨q, List.mem_of_find?_eq_some hfind, ?_⟩
      have := List.find?_some hfind
      exact of_decide_eq_true this
  obtain ⟨q, hq, hqh⟩ := hmem
  have hlt : h < e.nextHandle := hqh ▸ hfresh q hq
  refine ⟨{ e with
      nextHandle := e.nextHandle + 1
      heap := e.heap ++ [(e.nextHandle, freshTrackObj)]
      tracks := mapSet e.tracks id e.nextHandle }, ?_, ?_, ?_, ?_, ?_, ?_⟩
  · unfold createTrack
    rw [if_pos hinit]
  · exact mapGet_mapSet_self e.tracks id e.nextHandle
  · omega
  · rw [mapGet_append]
    rw [hheap]
  · have hnone : mapGet e.heap e.nextHandle = none := by
      rw [mapGet_eq_none_iff]
      intro p hp hpk
      have := hfresh p hp
      omega
    rw [mapGet_append, hnone]
    exact mapGet_cons_of_eq _ e.nextHandle rfl
  · unfold removeTrack
    rw [hmap]
    exact mapGet_map_replace_self e.heap h disposeObj hheap

/-- Claim C10 witness: on the concrete one-track engine, re-creating id
"1" maps it to the fresh handle 1 while the playing object at handle 0
survives untouched; `removeTrack` is what stops it. -/
theorem claim_C10_witness :
    ∃ e', createTrack exampleEngine "1" = Except.ok e' ∧
      mapGet e'.tracks "1" = some exampleEngine.nextHandle ∧
      exampleEngine.nextHandle ≠ 0 ∧
      mapGet e'.heap 0 =
        some { connected := true, playing := true, recording := false } ∧
      mapGet e'.heap exampleEngine.nextHandle = some freshTrackObj ∧
      mapGet (removeTrack exampleEngine "1").heap 0 =
        some (disposeObj { connected := true, playing := true, recording := false }) :=
  claim_C10_createTrack_no_dispose exampleEngine "1" 0
    { connected := true, playing := true, recording := false }
    rfl
    (by
      intro p hp
      simp only [exampleEngine, List.mem_singleton] at hp
      rw [hp]
      norm_num [exampleEngine])
    rfl rfl

/-- Claim C3 counterexample: with looping enabled over `[0, 1)`,
`seek(1/2)` while playing followed by a read (tick) one second later
yields the wrapped position `1/2`, not `t + Δ = 3/2` as the claim states
for all `Δ ≥ 0`. -/
theorem claim_C3_counterexample :
    (tick (transportSeek seekLoopState 0 (1 / 2)) (0 + 1)).currentTime = 1 / 2 ∧
    ¬((tick (transportSeek seekLoopState 0 (1 / 2)) (0 + 1)).currentTime =
      1 / 2 + 1) := by
  have hmod : jsMod (3 / 2) 1 = 1 / 2 := by
    have hfl : ⌊(3 : ℚ) / 2 / 1⌋ = 1 := by
      rw [show ((3 : ℚ) / 2 / 1) = 3 / 2 by norm_num, Int.floor_eq_iff] <;> norm_num
    rw [jsMod, qtrunc_of_nonneg (by norm_num), hfl]
    norm_num
  have hseek := transportSeek_playing seekLoopState 0 (1 / 2) rfl
  have hcompute :
      (tick (transportSeek seekLoopState 0 (1 / 2)) (0 + 1)).currentTime = 1 / 2 := by
    rw [hseek]
    rw [tick_playing_wrap
      { seekLoopState with
        currentTime := max 0 (1 / 2)
        startPlayhead := max 0 (1 / 2)
        startWallTime := 0 }
      (0 + 1) rfl (by constructor <;> norm_num [seekLoopState])]
    simp only [seekLoopState]
    rw [show (max (0 : ℚ) (1 / 2) + (0 + 1 - 0) - 0) = 3 / 2 by norm_num,
      show ((1 : ℚ) - 0) = 1 by norm_num, hmod]
    norm_num
  exact ⟨hcompute, by rw [hcompute]; norm_num⟩

/-- Claim C3 (amended): `seek(t)` always sets `currentTime` to
`max(0, t)`; while playing it re-anchors, so a read `Δ ≥ 0` later yields
`max(0, t) + Δ` exactly — provided looping is disabled or the target
`max(0, t) + Δ` does not cross `loopEnd` (a loop wrap otherwise folds the
position back into the loop region). -/
theorem claim_C3_amended_seek (s : TransportState) (now t d : ℚ)
    (hplay : s.isPlaying = true) (hd : 0 ≤ d)
    (hnw : s.loopEnabled = false ∨ max 0 t + d ≤ s.loopEnd) :
    (∀ s' : TransportState, ∀ now' t' : ℚ,
      (transportSeek s' now' t').currentTime = max 0 t') ∧
    (tick (transportSeek s now t) (now + d)).currentTime = max 0 t + d := by
  constructor
  · intro s' now' t'
    unfold transportSeek
    by_cases h : s'.isPlaying <;> simp [h]
  · rw [transportSeek_playing s now t hplay]
    have hw : ¬(s.loopEnabled = true ∧ max 0 t + (now + d - now) > s.loopEnd) := by
      rintro ⟨hloop, hgt⟩
      rcases hnw with hnw | hnw
      · rw [hnw] at hloop
        exact Bool.false_ne_true hloop
      · have hle : max 0 t + (now + d - now) ≤ s.loopEnd := by
          rw [show now + d - now = d by ring]
          exact hnw
        exact absurd hgt (not_lt.mpr hle)
    rw [tick_playing_no_wrap
      { s with
        currentTime := max 0 t
        startPlayhead := max 0 t
        startWallTime := now }
      (now + d) hplay hw]
    simp only
    ring

/-- Claim C1: merging a same-rate decoded segment `N` into the existing
buffer `E` produces a buffer of `max(Le, offsetFrames + Ln)` frames with
`offsetFrames = round(segmentStart × sr)`, channel count the max of the
two; `N` overwrites the region `[offsetFrames, offsetFrames + Ln)` while
samples of `E` outside that region (and all of `E`'s samples on channels
`N` lacks) are unchanged. -/
theorem claim_C1_overdub_merge (tr : TrackState) (E N : AudioBuffer)
    (hbuf : tr.audioBuffer = some E)
    (hsr : N.sampleRate = E.sampleRate)
    (hpos : 0 ≤ tr.segmentStartPos)
    (hsrpos : 0 < E.sampleRate) :
    ∃ B, (loadAudioFromBlob tr (some N)).audioBuffer = some B ∧
      B.length =
        max E.length ((jsRound (tr.segmentStartPos * E.sampleRate)).toNat + N.length) ∧
      B.numberOfChannels = max E.numberOfChannels N.numberOfChannels ∧
      B.sampleRate = E.sampleRate ∧
      (∀ ch i, ch < N.numberOfChannels → i < N.length →
        B.sample ch ((jsRound (tr.segmentStartPos * E.sampleRate)).toNat + i) =
          N.sample ch i) ∧
      (∀ ch i, ch < E.numberOfChannels → i < E.length →
        (i < (jsRound (tr.segmentStartPos * E.sampleRate)).toNat ∨
          (jsRound (tr.segmentStartPos * E.sampleRate)).toNat + N.length ≤ i) →
        B.sample ch i = E.sample ch i) ∧
      (∀ ch i, ch < E.numberOfChannels → N.numberOfChannels ≤ ch → i < E.length →
        B.sample ch i = E.sample ch i) := by
  have hq : 0 ≤ tr.segmentStartPos * E.sampleRate := mul_nonneg hpos hsrpos.le
  have ho : 0 ≤ jsRound (tr.segmentStartPos * E.sampleRate) := by
    rw [jsRound]
    rw [Int.le_floor]
    push_cast
    linarith
  have hoNat : ((jsRound (tr.segmentStartPos * E.sampleRate)).toNat : ℤ) =
      jsRound (tr.segmentStartPos * E.sampleRate) := Int.toNat_of_nonneg ho
  have hres : loadAudioFromBlob tr (some N) =
      { tr with audioBuffer := some (mergeBuffers E N tr.segmentStartPos) } := by
    simp [loadAudioFromBlob, hbuf, hsr]
  refine ⟨mergeBuffers E N tr.segmentStartPos, by rw [hres], ?_, rfl, rfl, ?_, ?_, ?_⟩
  · show (max (E.length : ℤ)
        (jsRound (tr.segmentStartPos * E.sampleRate) + N.length)).toNat = _
    omega
  · intro ch i hch hi
    show (if ch < N.numberOfChannels ∧
        jsRound (tr.segmentStartPos * E.sampleRate) ≤
          (((jsRound (tr.segmentStartPos * E.sampleRate)).toNat + i : ℕ) : ℤ) ∧
        (((jsRound (tr.segmentStartPos * E.sampleRate)).toNat + i : ℕ) : ℤ) <
          jsRound (tr.segmentStartPos * E.sampleRate) + N.length then
        N.sample ch ((((jsRound (tr.segmentStartPos * E.sampleRate)).toNat + i : ℕ) : ℤ)
          - jsRound (tr.segmentStartPos * E.sampleRate)).toNat
      else if ch < E.numberOfChannels ∧
          (jsRound (tr.segmentStartPos * E.sampleRate)).toNat + i < E.length then
        E.sample ch ((jsRound (tr.segmentStartPos * E.sampleRate)).toNat + i)
      else 0) = N.sample ch i
    rw [if_pos ⟨hch, by push_cast; omega, by push_cast; omega⟩]
    congr 1
    omega
  · intro ch i hch hi hout
    show (if ch < N.numberOfChannels ∧
        jsRound (tr.segmentStartPos * E.sampleRate) ≤ (i : ℤ) ∧
        (i : ℤ) < jsRound (tr.segmentStartPos * E.sampleRate) + N.length then
        N.sample ch ((i : ℤ) - jsRound (tr.segmentStartPos * E.sampleRate)).toNat
      else if ch < E.numberOfChannels ∧ i < E.length then
        E.sample ch i
      else 0) = E.sample ch i
    rw [if_neg (by
      rintro ⟨-, hlo, hhi⟩
      omega), if_pos ⟨hch, hi⟩]
  · intro ch i hch hNch hi
    show (if ch < N.numberOfChannels ∧
        jsRound (tr.segmentStartPos * E.sampleRate) ≤ (i : ℤ) ∧
        (i : ℤ) < jsRound (tr.segmentStartPos * E.sampleRate) + N.length then
        N.sample ch ((i : ℤ) - jsRound (tr.segmentStartPos * E.sampleRate)).toNat
      else if ch < E.numberOfChannels ∧ i < E.length then
        E.sample ch i
      else 0) = E.sample ch i
    rw [if_neg (by
      rintro ⟨hchN, -, -⟩
      omega), if_pos ⟨hch, hi⟩]

/-- Claim C1 witness: overdubbing the 2-frame constant-9 segment `bufB`
at transport time 1 into the 4-frame buffer `bufA` keeps length 4 and
yields samples `1, 9, 9, 4`. -/
theorem claim_C1_witness :
    ∃ B, (loadAudioFromBlob overdubTrack (some bufB)).audioBuffer = some B ∧
      B.length = max bufA.length
        ((jsRound (overdubTrack.segmentStartPos * bufA.sampleRate)).toNat + bufB.length) ∧
      B.numberOfChannels = max bufA.numberOfChannels bufB.numberOfChannels ∧
      B.sampleRate = bufA.sampleRate ∧
      (∀ ch i, ch < bufB.numberOfChannels → i < bufB.length →
        B.sample ch ((jsRound (overdubTrack.segmentStartPos * bufA.sampleRate)).toNat + i) =
          bufB.sample ch i) ∧
      (∀ ch i, ch < bufA.numberOfChannels → i < bufA.length →
        (i < (jsRound (overdubTrack.segmentStartPos * bufA.sampleRate)).toNat ∨
          (jsRound (overdubTrack.segmentStartPos * bufA.sampleRate)).toNat + bufB.length ≤ i) →
        B.sample ch i = bufA.sample ch i) ∧
      (∀ ch i, ch < bufA.numberOfChannels → bufB.numberOfChannels ≤ ch → i < bufA.length →
        B.sample ch i = bufA.sample ch i) :=
  claim_C1_overdub_merge overdubTrack bufA bufB rfl rfl
    (by norm_num [overdubTrack, newTrack])
    (by norm_num [bufA])

/-- Claim C3 witness: on the loop-disabled playing transport, seeking to
2 and reading 3 s later yields exactly 5. -/
theorem claim_C3_witness :
    (∀ s' : TransportState, ∀ now' t' : ℚ,
      (transportSeek s' now' t').currentTime = max 0 t') ∧
    (tick (transportSeek seekPlainState 0 2) (0 + 3)).currentTime = max 0 2 + 3 :=
  claim_C3_amended_seek seekPlainState 0 2 3 rfl (by norm_num) (Or.inl rfl)

/-- Claim C2 counterexample: with loop `[0, 3)` and playback started at
`loopStart` at wall time 0, an elapsed time `e = 6` is an exact multiple
of the loop length; the claimed value is
`loopStart + (6 mod 3) = 0`, but ticking at wall times 4 then 6 leaves
`currentTime = 3` (= `loopEnd`): the result is neither the claimed value
nor independent of the tick schedule at such boundaries. -/
theorem claim_C2_counterexample :
    (runTicks (transportPlay loopBase 0) [4, 6]).currentTime = 3 ∧
    loopBase.loopStart + jsMod ((0 + 6) - 0) (loopBase.loopEnd - loopBase.loopStart) = 0 ∧
    ¬((runTicks (transportPlay loopBase 0) [4, 6]).currentTime =
      loopBase.loopStart + jsMod ((0 + 6) - 0) (loopBase.loopEnd - loopBase.loopStart)) := by
  have hrun : (runTicks (transportPlay loopBase 0) [4, 6]).currentTime = 3 := by
    norm_num [runTicks, transportPlay, tick, loopBase, jsMod, qtrunc]
  have hclaimed : loopBase.loopStart +
      jsMod ((0 + 6) - 0) (loopBase.loopEnd - loopBase.loopStart) = 0 := by
    norm_num [loopBase, jsMod, qtrunc]
  refine ⟨hrun, hclaimed, ?_⟩
  rw [hrun, hclaimed]
  norm_num

/-- Claim C2 (amended): while the transport plays with loop enabled and
`loopStart < loopEnd`, each advance computes
`next = playheadAtPlayStart + elapsed`, wraps it by
`loopStart + ((next - loopStart) mod loopLen)` when `next > loopEnd` and
re-anchors; consequently, after starting playback at `loopStart` at wall
time `w0`, any monotone tick schedule ending at `w0 + e` leaves
`currentTime = loopStart + (e mod loopLen)` independent of how many ticks
occurred — provided `e mod loopLen ≠ 0` (at exact multiples of the loop
length the playhead may land on `loopEnd` instead, depending on the
schedule). -/
theorem claim_C2_amended_loop_wrap (s : TransportState) (w0 e : ℚ) (ts : List ℚ)
    (hplay : s.isPlaying = false)
    (hloop : s.loopEnabled = true)
    (hlt : s.loopStart < s.loopEnd)
    (hcur : s.currentTime = s.loopStart)
    (hchain : List.Chain (· ≤ ·) w0 ts)
    (hlast : ts.getLast? = some (w0 + e))
    (hnz : jsMod e (s.loopEnd - s.loopStart) ≠ 0) :
    (runTicks (transportPlay s w0) ts).currentTime =
      s.loopStart + jsMod e (s.loopEnd - s.loopStart) := by
  have hplayEq : transportPlay s w0 =
      { s with isPlaying := true, startWallTime := w0, startPlayhead := s.currentTime } := by
    unfold transportPlay
    rw [if_neg (by simp [hplay])]
  have hinv : TickInv s.loopStart s.loopEnd w0 w0 (transportPlay s w0) := by
    rw [hplayEq]
    refine ⟨rfl, hloop, rfl, rfl, le_refl w0, 0, le_refl 0, ?_, ?_, ?_⟩
    · show s.currentTime - s.loopStart = w0 - w0 - (((0 : ℤ) : ℚ)) * (s.loopEnd - s.loopStart)
      rw [hcur]
      push_cast
      ring
    · show 0 ≤ s.currentTime - s.loopStart
      rw [hcur]
      simp
    · show s.currentTime - s.loopStart < s.loopEnd - s.loopStart
      rw [hcur]
      simp only [sub_self]
      linarith
  have hmain := runTicks_loop s.loopStart s.loopEnd w0 hlt ts (transportPlay s w0) w0
    hinv hchain (w0 + e) hlast
  have he : w0 + e - w0 = e := by ring
  rw [he] at hmain
  rcases hmain with h | h
  · exact h
  · exact absurd h.2 hnz

/-- Claim C2 witness: loop `[0, 3)`, ticks at wall times 1 and 5, elapsed
`e = 5`: the playhead ends at `0 + (5 mod 3) = 2`. -/
theorem claim_C2_witness :
    (runTicks (transportPlay loopBase 0) [1, 5]).currentTime =
      loopBase.loopStart + jsMod 5 (loopBase.loopEnd - loopBase.loopStart) :=
  claim_C2_amended_loop_wrap loopBase 0 5 [1, 5] rfl rfl
    (by norm_num [loopBase]) rfl
    (by norm_num [List.chain_cons])
    (by norm_num)
    (by norm_num [loopBase, jsMod, qtrunc])

/-- Claim C8 counterexample: a prior session stored slot 0, yet starting
a new recording session clears the archive (`waveformBufferRef.current.clear()`
in `startRecording`), dropping the slot without any explicit clear
request. -/
theorem claim_C8_counterexample :
    mapGet ((⟨[(0, [1])], 0⟩ : TimedomainState).waveformBuffer) 0 = some [1] ∧
    (timedomainStartSession ⟨[(0, [1])], 0⟩ 5).waveformBuffer = [] ∧
    mapGet ((timedomainStartSession ⟨[(0, [1])], 0⟩ 5).waveformBuffer) 0 = none := by
  refine ⟨?_, rfl, rfl⟩
  rfl

/-- Claim C8 (amended): starting a recording session clears all
previously stored slots; within a session each capture step preserves
key-uniqueness, never decreases the number of populated slots (which
stays capped at 1000 — beyond that the oldest slot is evicted per new
capture), and a slot other than the captured one keeps its stored value
whenever it survives. -/
theorem claim_C8_amended_archive (s : TimedomainState) (currentTime : ℚ)
    (data : List ℚ) (hn : KeysNodup s.waveformBuffer)
    (hcap : s.waveformBuffer.length ≤ 1000) :
    (∀ s' : TimedomainState, ∀ t' : ℚ,
      (timedomainStartSession s' t').waveformBuffer = []) ∧
    KeysNodup (timedomainCapture s currentTime data).waveformBuffer ∧
    s.waveformBuffer.length ≤
      (timedomainCapture s currentTime data).waveformBuffer.length ∧
    (timedomainCapture s currentTime data).waveformBuffer.length ≤ 1000 ∧
    (∀ k v, k ≠ timeKeyOf (currentTime - s.recordingStartTime) →
      mapGet (timedomainCapture s currentTime data).waveformBuffer k = some v →
      mapGet s.waveformBuffer k = some v) := by
  refine ⟨fun s' t' => rfl, ?_⟩
  by_cases hrel : 0 ≤ currentTime - s.recordingStartTime
  · have hbuf : (timedomainCapture s currentTime data).waveformBuffer =
        (if 1000 <
            (mapSet s.waveformBuffer
              (timeKeyOf (currentTime - s.recordingStartTime)) data).length then
          mapDelete
            (mapSet s.waveformBuffer
              (timeKeyOf (currentTime - s.recordingStartTime)) data)
            (minKey (mapSet s.waveformBuffer
              (timeKeyOf (currentTime - s.recordingStartTime)) data))
        else
          mapSet s.waveformBuffer
            (timeKeyOf (currentTime - s.recordingStartTime)) data) := by
      unfold timedomainCapture
      rw [if_pos hrel]
    have hn1 : KeysNodup (mapSet s.waveformBuffer
        (timeKeyOf (currentTime - s.recordingStartTime)) data) :=
      keysNodup_mapSet _ _ _ hn
    have hle1 : (mapSet s.waveformBuffer
        (timeKeyOf (currentTime - s.recordingStartTime)) data).length ≤
        s.waveformBuffer.length + 1 := length_mapSet_le _ _ _
    have hge1 : s.waveformBuffer.length ≤ (mapSet s.waveformBuffer
        (timeKeyOf (currentTime - s.recordingStartTime)) data).length :=
      length_mapSet_ge _ _ _
    by_cases hover : 1000 < (mapSet s.waveformBuffer
        (timeKeyOf (currentTime - s.recordingStartTime)) data).length
    · rw [hbuf, if_pos hover]
      have hne : (mapSet s.waveformBuffer
          (timeKeyOf (currentTime - s.recordingStartTime)) data) ≠ [] := by
        intro hempty
        rw [hempty] at hover
        simp at hover
      have hmem := minKey_mem _ hne
      have hdel := length_mapDelete_of_mem _ _ hn1 hmem
      refine ⟨keysNodup_mapDelete _ _ hn1, by omega, by omega, ?_⟩
      intro k v hk hget
      have hkmin : k ≠ minKey (mapSet s.waveformBuffer
          (timeKeyOf (currentTime - s.recordingStartTime)) data) := by
        intro heq
        rw [heq, mapGet_mapDelete_self] at hget
        exact Option.noConfusion hget
      rw [mapGet_mapDelete_ne _ _ _ hkmin] at hget
      rw [mapGet_mapSet_ne _ _ _ _ hk] at hget
      exact hget
    · rw [hbuf, if_neg hover]
      refine ⟨hn1, hge1, by omega, ?_⟩
      intro k v hk hget
      rw [mapGet_mapSet_ne _ _ _ _ hk] at hget
      exact hget
  · have hbuf : timedomainCapture s currentTime data = s := by
      unfold timedomainCapture
      rw [if_neg hrel]
    rw [hbuf]
    exact ⟨hn, le_refl _, hcap, fun k v _ hget => hget⟩

/-- Claim C8 witness: capturing data at time 1/2 into a session started
at 0 holding one slot keeps that slot, grows the archive, and stays
within the cap. -/
theorem claim_C8_witness :
    (∀ s' : TimedomainState, ∀ t' : ℚ,
      (timedomainStartSession s' t').waveformBuffer = []) ∧
    KeysNodup (timedomainCapture ⟨[(0, [1])], 0⟩ (1 / 2) [2, 3]).waveformBuffer ∧
    ([(0, [1])] : List (ℚ × List ℚ)).length ≤
      (timedomainCapture ⟨[(0, [1])], 0⟩ (1 / 2) [2, 3]).waveformBuffer.length ∧
    (timedomainCapture ⟨[(0, [1])], 0⟩ (1 / 2) [2, 3]).waveformBuffer.length ≤ 1000 ∧
    (∀ k v, k ≠ timeKeyOf ((1 / 2) - (0 : ℚ)) →
      mapGet (timedomainCapture ⟨[(0, [1])], 0⟩ (1 / 2) [2, 3]).waveformBuffer k =
        some v →
      mapGet ([(0, [1])] : List (ℚ × List ℚ)) k = some v) :=
  claim_C8_amended_archive ⟨[(0, [1])], 0⟩ (1 / 2) [2, 3]
    (by simp [KeysNodup]) (by simp)

end SyncDaw
